import Mathlib

/-!
Verification of the agentiny invoice-processor repository.

The repository's `src/invoice-processor.ts` is a demo of the `@agentiny/core`
reactive engine: it registers five `once` triggers driving a five-stage
invoice pipeline and exercises the engine's lifecycle
(`start` / `setState` / `settle` / `getState` / `stop`).  The engine itself
(`Agent` from `@agentiny/core`) is not part of the repository's sources, so
the engine model below is built from the specification's description of the
State Store, Trigger Registry, Evaluator/Dispatch Loop, Run Controller and
Error Sink; the concrete pipeline model further down is transcribed from the
trigger predicates and `onResponse` handlers of `src/invoice-processor.ts`.
-/

namespace Agentiny

/-- A state field name.  The engine treats state as a mapping from field
names to values. -/
abbrev Field := String

/-- Modelled from the spec: the State Store's single mutable value, "a single
mapping from field name to value"; a field absent from the mapping is
`undefined`. -/
def State (α : Type) : Type := Field → Option α

/-- Modelled from the spec: "a sparse set of field assignments merged into
the Store, leaving untouched fields unchanged". -/
abbrev Upd (α : Type) := List (Field × α)

/-- Overwrite one field of the state. -/
def setField (s : State α) (f : Field) (v : α) : State α :=
  fun g => if g = f then some v else s g

/-- Modelled from the spec: `merge` "applies partial updates field-by-field";
a later assignment to the same field overwrites an earlier one. -/
def merge (s : State α) (p : Upd α) : State α :=
  p.foldl (fun acc fv => setField acc fv.1 fv.2) s

/-- The value an update assigns to a field (the last assignment listed for
that field wins), if any. -/
def lookupField : Upd α → Field → Option α
  | [], _ => none
  | fv :: p, f =>
    match lookupField p f with
    | some v => some v
    | none => if f = fv.1 then some fv.2 else none

/-- Modelled from the spec: `merge` "returns whether any field's value
actually changed", "used to avoid spurious re-evaluation rounds". -/
def mergeChanged [DecidableEq α] (s : State α) (p : Upd α) : Bool :=
  p.any (fun fv => decide (merge s p fv.1 ≠ s fv.1))

/-- Modelled from the spec: the two firing modes of a trigger. -/
inductive Mode
  | once
  | always
deriving DecidableEq

/-- Modelled from the spec: an Action is "an asynchronous unit of work that
reads state and produces a partial update"; it may fail with an arbitrary
error.  Its result is a pure function of the snapshot it is handed at
dispatch, delivered later as a completion. -/
def Action (α : Type) := State α → Except String (Upd α)

/-- Modelled from the spec: a Trigger is a `(predicate, action-list,
firing-mode)` entry; the predicate may throw, which the evaluator treats as
a non-match. -/
structure Trigger (α : Type) where
  pred : State α → Except String Bool
  actions : List (Action α)
  mode : Mode

/-- Per-trigger runtime bookkeeping: the `consumed` flag of a `once` trigger
and the previous round's evaluation of the predicate (`none` before the
first round that evaluates it), used for the edge-triggered `always` rule. -/
structure TrigRT where
  consumed : Bool
  prevMatch : Option Bool
deriving DecidableEq

/-- The runtime state a trigger starts with. -/
def TrigRT.init : TrigRT := ⟨false, none⟩

/-- Modelled from the spec: the Run's lifecycle status. -/
inductive Status
  | idle
  | running
  | stopped
deriving DecidableEq

/-- Modelled from the spec: a Run configuration — the state, the ordered
trigger registry with its runtime bookkeeping, the Pending Set (dispatched
actions whose completions have not yet been delivered, in dispatch order),
the scheduled-round flag, the lifecycle status, the Error Sink log, and a
per-trigger count of the rounds in which that trigger fired (its action
list was dispatched). -/
structure Config (α : Type) where
  state : State α
  trigs : List (Trigger α)
  rts : List TrigRT
  counts : List Nat
  pending : List (Except String (Upd α))
  roundScheduled : Bool
  status : Status
  errors : List String

/-- The result of evaluating one trigger in a round: whether it fired, its
updated runtime bookkeeping, predicate errors, and the completions its
dispatched actions will deliver. -/
structure EvalRes (α : Type) where
  fired : Bool
  rt : TrigRT
  errs : List String
  disp : List (Except String (Upd α))

/-- Modelled from the spec, evaluator step 2: skip a consumed `once`
trigger; a predicate that throws is treated as a non-match and reported; a
`once` trigger fires when not yet consumed (and is consumed immediately);
an `always` trigger fires only when the previous round's evaluation was
false or this is the first round evaluating it (edge-triggered).  A firing
trigger's actions are dispatched on the round snapshot, in listed order. -/
def evalOne (snap : State α) (t : Trigger α) (rt : TrigRT) : EvalRes α :=
  match t.mode, rt.consumed with
  | .once, true => ⟨false, rt, [], []⟩
  | m, _ =>
    match t.pred snap with
    | .error e => ⟨false, { rt with prevMatch := some false }, [e], []⟩
    | .ok b =>
      let fire := b && (match m with
        | .once => !rt.consumed
        | .always => rt.prevMatch != some true)
      ⟨fire,
       ⟨rt.consumed || (fire && decide (m = .once)), some b⟩,
       [],
       if fire then t.actions.map (fun a => a snap) else []⟩

/-- Modelled from the spec, evaluator steps 1–3: one evaluation round takes
a snapshot, evaluates every registered trigger in registration order, and
dispatches the matched triggers' actions (appending their future
completions to the Pending Set in dispatch order). -/
def runRound [DecidableEq α] (c : Config α) : Config α :=
  let rs := List.zipWith (evalOne c.state) c.trigs c.rts
  { c with
    rts := rs.map (fun r => r.rt)
    counts := List.zipWith (fun n r => n + (if r.fired then 1 else 0)) c.counts rs
    pending := c.pending ++ (rs.map (fun r => r.disp)).flatten
    errors := c.errors ++ (rs.map (fun r => r.errs)).flatten
    roundScheduled := false }

/-- Modelled from the spec: delivering the completion at position `i` of the
Pending Set.  The entry is always cleared; while `RUNNING`, a successful
result is merged (scheduling another round when it changed the state) and a
failed result is reported to the Error Sink without merging; after `stop`,
the completion is discarded. -/
def deliver [DecidableEq α] (c : Config α) (i : Nat) : Config α :=
  match c.pending[i]? with
  | none => c
  | some r =>
    match c.status with
    | .running =>
      match r with
      | .error e =>
        { c with pending := c.pending.eraseIdx i, errors := c.errors ++ [e] }
      | .ok p =>
        if mergeChanged c.state p then
          { c with pending := c.pending.eraseIdx i, state := merge c.state p,
                   roundScheduled := true }
        else
          { c with pending := c.pending.eraseIdx i }
    | _ => { c with pending := c.pending.eraseIdx i }

/-- Modelled from the spec: `setState` is "merge followed by triggering an
evaluation round if changed"; before `start` it only establishes state. -/
def Config.setState [DecidableEq α] (c : Config α) (p : Upd α) : Config α :=
  { c with state := merge c.state p
           roundScheduled := c.roundScheduled ||
             (mergeChanged c.state p && decide (c.status = .running)) }

/-- The `IDLE → RUNNING` transition followed by the initial evaluation round
against the current state. -/
def startRun [DecidableEq α] (c : Config α) : Config α :=
  runRound { c with status := .running }

/-- Modelled from the spec: `start()` transitions `IDLE → RUNNING` and runs
an initial evaluation round against the current state; it fails with
`AlreadyRunning` when the Run is not idle. -/
def Config.start [DecidableEq α] (c : Config α) : Except String (Config α) :=
  match c.status with
  | .idle => .ok (startRun c)
  | _ => .error "AlreadyRunning"

/-- Modelled from the spec: `stop()` transitions to `STOPPED` and stops
scheduling new rounds; in-flight actions are not cancelled. -/
def Config.stop (c : Config α) : Config α :=
  { c with status := .stopped, roundScheduled := false }

/-- Modelled from the spec: `getState()` returns the current snapshot. -/
def Config.getState (c : Config α) : State α := c.state

/-- The engine's quiescence check: empty Pending Set and no scheduled
evaluation round. -/
def quiescentB (c : Config α) : Bool :=
  c.pending.isEmpty && !c.roundScheduled

/-- The engine's internal scheduler: run a scheduled round if any, else
deliver the oldest pending completion, else nothing remains to do. -/
def schedStep [DecidableEq α] (c : Config α) : Option (Config α) :=
  if c.roundScheduled && decide (c.status = .running) then some (runRound c)
  else
    match c.pending with
    | _ :: _ => some (deliver c 0)
    | [] => none

/-- Run the internal scheduler for at most `n` steps. -/
def drain [DecidableEq α] : Nat → Config α → Config α
  | 0, c => c
  | n + 1, c =>
    match schedStep c with
    | none => c
    | some c' => drain n c'

/-- Modelled from the spec: `settle()` resolves once the engine reaches
quiescence under its own scheduler. -/
def settleResolves [DecidableEq α] (c : Config α) : Prop :=
  ∃ n, quiescentB (drain n c) = true

/-- Whether a trigger's predicate evaluates to true (a throwing predicate
counts as false). -/
def predTrue (s : State α) (t : Trigger α) : Bool :=
  match t.pred s with
  | .ok b => b
  | .error _ => false

/-- Whether a trigger currently matches and is still allowed to fire: its
predicate holds and it is neither a consumed `once` trigger nor an `always`
trigger whose predicate already held in the previous round. -/
def eligB (s : State α) (t : Trigger α) (rt : TrigRT) : Bool :=
  predTrue s t && (match t.mode with
    | .once => !rt.consumed
    | .always => rt.prevMatch != some true)

/-- No registered trigger currently matches (in the fireable sense). -/
def noEligible (c : Config α) : Prop :=
  ∀ (i : Nat) (t : Trigger α) (rt : TrigRT),
    c.trigs[i]? = some t → c.rts[i]? = some rt →
    eligB c.state t rt = false

/-- Modelled from the spec: the externally driven evolution of a Run — the
engine running a scheduled round, delivering any pending completion (in any
completion order), and the caller's `start`, `setState` and `stop`. -/
inductive Step [DecidableEq α] : Config α → Config α → Prop
  | start (c : Config α) : c.status = .idle → Step c (startRun c)
  | round (c : Config α) : c.status = .running → c.roundScheduled = true →
      Step c (runRound c)
  | deliver (c : Config α) (i : Nat) : Step c (deliver c i)
  | ext (c : Config α) (p : Upd α) : Step c (c.setState p)
  | halt (c : Config α) : Step c c.stop

/-- A Run evolution: the reflexive-transitive closure of `Step`. -/
abbrev Reaches [DecidableEq α] (c c' : Config α) : Prop :=
  Relation.ReflTransGen Step c c'

/-- The at-most-once invariant for `once` triggers: every registered `once`
trigger has aligned runtime bookkeeping and a fire count of at most one,
zero while it is unconsumed. -/
def OnceOK (c : Config α) : Prop :=
  ∀ (i : Nat) (t : Trigger α), c.trigs[i]? = some t → t.mode = .once →
    ∃ rt n, c.rts[i]? = some rt ∧ c.counts[i]? = some n ∧ n ≤ 1 ∧
      (rt.consumed = false → n = 0)

/-- The quiescence invariant: while running with no round scheduled, no
trigger currently matches in the fireable sense (every state change since
the last round would have scheduled a round). -/
def SettleInv (c : Config α) : Prop :=
  c.status = .running → c.roundScheduled = false → noEligible c

/-- The state holding exactly the given assignments. -/
def stateOf [DecidableEq α] (p : Upd α) : State α :=
  merge (fun _ => none) p

/-- An idle Run with the given initial state and registered triggers. -/
def mkConfig [DecidableEq α] (s : Upd α) (ts : List (Trigger α)) : Config α :=
  { state := stateOf s
    trigs := ts
    rts := List.replicate ts.length TrigRT.init
    counts := List.replicate ts.length 0
    pending := []
    roundScheduled := false
    status := .idle
    errors := [] }

/-- Scenario (spec §8, Scenario 2): the action that increments `count`. -/
def incAct : Action Nat :=
  fun s => .ok [("count", (s "count").getD 0 + 1)]

/-- Scenario (spec §8, Scenario 2): `when(state => state.count < 3,
[incrementCount])`, an `ALWAYS` trigger. -/
def c3trig : Trigger Nat :=
  ⟨fun s => .ok (decide ((s "count").getD 0 < 3)), [incAct], .always⟩

/-- Scenario (spec §8, Scenario 2): a Run with `count: 0` and the
increment trigger registered. -/
def c3cfg : Config Nat := mkConfig [("count", 0)] [c3trig]

/-- Scenario (spec §8, Scenario 3): an action whose asynchronous execution
fails, simulating a parse failure on malformed output. -/
def failAct : Action Nat := fun _ => .error "parse failure"

/-- Scenario (spec §8, Scenario 3): the action the downstream trigger would
run. -/
def setCAct : Action Nat := fun _ => .ok [("c", 1)]

/-- Scenario (spec §8, Scenario 3): the failing action is supposed to set
field `b`; it is triggered by field `a`. -/
def c4t1 : Trigger Nat := ⟨fun s => .ok (s "a").isSome, [failAct], .once⟩

/-- Scenario (spec §8, Scenario 3): the downstream trigger gated on the
field `b` that the failing action was supposed to set. -/
def c4t2 : Trigger Nat := ⟨fun s => .ok (s "b").isSome, [setCAct], .once⟩

/-- Scenario (spec §8, Scenario 3): the Run with the failing stage and its
downstream stage registered. -/
def c4cfg : Config Nat := mkConfig [] [c4t1, c4t2]

/-- Scenario (spec §8, Scenario 3) executed: start, set `a`, run to
quiescence. -/
def c4run : Config Nat := drain 10 ((startRun c4cfg).setState [("a", 1)])

/-- A `ONCE` trigger whose predicate is always satisfied. -/
def c1trig : Trigger Nat :=
  ⟨fun _ => .ok true, [fun _ => .ok [("b", 1)]], .once⟩

/-- A Run with a single always-satisfied `ONCE` trigger. -/
def c1cfg : Config Nat := mkConfig [] [c1trig]

/-- A running Run with two dispatched actions (dispatch order: position 0
before position 1) whose completions both write field `x`. -/
def lwwCfg : Config Nat :=
  { mkConfig [] [] with
    status := .running
    pending := [.ok [("x", 10)], .ok [("x", 20)]] }

/-- A running Run with one failed completion pending. -/
def errCfg : Config Nat :=
  { mkConfig [] [] with
    status := .running
    pending := [.error "boom"] }

/-- A trigger whose predicate throws. -/
def c7bad : Trigger Nat := ⟨fun _ => .error "boom", [], .once⟩

/-- A well-behaved trigger registered after the throwing one. -/
def c7good : Trigger Nat := ⟨fun _ => .ok true, [], .once⟩

/-- A Run with a throwing predicate followed by a matching trigger. -/
def c7cfg : Config Nat := mkConfig [] [c7bad, c7good]

/-- A `ONCE` trigger whose predicate is already satisfied before `start`. -/
def c9trig : Trigger Nat :=
  ⟨fun s => .ok (s "a").isSome, [fun _ => .ok [("b", 1)]], .once⟩

/-- A Run whose initial state already satisfies the registered `ONCE`
trigger before `start` is called. -/
def c9cfg : Config Nat := mkConfig [("a", 1)] [c9trig]

end Agentiny

namespace InvoicePipeline

/-!
The five-stage demo pipeline of `src/invoice-processor.ts`, as a typed
transition system.  The trigger predicates (lines 273–300) and the
`onResponse` handlers (lines 94–105, 137–144, 172–181, 215–231, 260–264)
are transcribed from the source; the surrounding engine semantics
(`once` consumption, dispatch on a matching predicate, asynchronous
completion, external `setState` merging) are modelled from the spec, as the
engine is not part of the repository's sources.  Dispatches are allowed
whenever a trigger's predicate holds and it is unconsumed, which
over-approximates the engine's round discipline, so invariants proved here
hold of every engine schedule.  JavaScript truthiness is modelled
faithfully for the string-typed fields tested with `!`/`!!` (the empty
string is falsy); `=== undefined` is modelled as `Option.isNone`.
-/

/-- A line item of the extracted invoice data (`InvoiceState.extractedData`,
src lines 21–26); TypeScript `number` is modelled as `Rat`. -/
structure LineItem where
  description : String
  quantity : Rat
  unitPrice : Rat
  total : Rat
deriving DecidableEq

/-- The extraction stage's output (src lines 17–30). -/
structure ExtractedData where
  vendor : String
  date : String
  invoiceNumber : String
  items : List LineItem
  subtotal : Rat
  tax : Rat
  total : Rat
deriving DecidableEq

/-- The validation stage's output (src lines 33–37). -/
structure ValidationResults where
  mathCorrect : Bool
  hasAllFields : Bool
  issues : List String
deriving DecidableEq

/-- The `status` union (src line 47). -/
inductive InvStatus
  | pending
  | processing
  | validated
  | flagged
  | completed
deriving DecidableEq

/-- The pipeline's shared state (`InvoiceState`, src lines 11–49); each
optional TypeScript field is an `Option`, with `none` for `undefined`. -/
structure InvState where
  documentPath : Option String := none
  documentContent : Option String := none
  extractedData : Option ExtractedData := none
  validationResults : Option ValidationResults := none
  category : Option String := none
  confidence : Option Rat := none
  anomalies : Option (List String) := none
  status : Option InvStatus := none
  report : Option String := none
deriving DecidableEq

/-- JavaScript truthiness of an optional string: `undefined` and the empty
string are falsy. -/
def truthy : Option String → Bool
  | none => false
  | some s => !(s == "")

/-- The five pipeline stages, in registration order (src lines 273–300). -/
inductive Stage
  | s1
  | s2
  | s3
  | s4
  | s5
deriving DecidableEq

/-- Trigger predicates of the five `once` registrations (src lines
273–300): `!!x` on a string field is truthiness, `!x` on an object field is
`isNone`, `=== undefined` is `isNone`. -/
def guardOf : Stage → InvState → Bool
  | .s1, s => truthy s.documentContent && s.extractedData.isNone
  | .s2, s => s.extractedData.isSome && s.validationResults.isNone
  | .s3, s => s.validationResults.isSome && !(truthy s.category)
  | .s4, s => truthy s.category && s.anomalies.isNone
  | .s5, s => s.anomalies.isSome && !(truthy s.report)

/-- Outcomes of the extraction action (src lines 94–105): the response
parses (the `try` branch assigns `extractedData` and sets
`status = 'processing'`), the parse throws (the `catch` branch sets
`status = 'flagged'`), or the asynchronous call itself fails (the handler
never runs). -/
inductive Outcome1
  | parsed (d : ExtractedData)
  | parseFail
  | actionFail

/-- Outcomes of the validation action (src lines 137–144): on parse failure
the handler writes nothing; an action failure also writes nothing. -/
inductive Outcome2
  | parsed (v : ValidationResults)
  | failed

/-- Outcomes of the categorization action (src lines 172–181): on success
`category` and `confidence` receive whatever fields the parsed object has
(possibly `undefined`, hence `Option` payloads). -/
inductive Outcome3
  | parsed (c : Option String) (k : Option Rat)
  | failed

/-- Outcomes of the anomaly-detection action (src lines 215–231):
`anomalies` receives the parsed field (possibly `undefined`); `status`
becomes `'flagged'` when a non-empty list was assigned and `'validated'`
otherwise. -/
inductive Outcome4
  | parsed (a : Option (List String))
  | failed

/-- Outcomes of the report action (src lines 260–264): its handler has no
`try`/`catch` and cannot throw, so the only failure is the asynchronous
call itself failing. -/
inductive Outcome5
  | responded (r : String)
  | actionFail

/-- A completion of one of the five stages with its outcome. -/
inductive StageOutcome
  | o1 (o : Outcome1)
  | o2 (o : Outcome2)
  | o3 (o : Outcome3)
  | o4 (o : Outcome4)
  | o5 (o : Outcome5)

/-- The stage a completion belongs to. -/
def StageOutcome.stage : StageOutcome → Stage
  | .o1 _ => .s1
  | .o2 _ => .s2
  | .o3 _ => .s3
  | .o4 _ => .s4
  | .o5 _ => .s5

/-- Whether `state.anomalies && state.anomalies.length > 0` (src line
221). -/
def anomFlag : Option (List String) → Bool
  | some (_ :: _) => true
  | _ => false

/-- The state writes each `onResponse` handler performs (transcribed from
src lines 94–105, 137–144, 172–181, 215–231, 260–264). -/
def StageOutcome.apply : StageOutcome → InvState → InvState
  | .o1 (.parsed d), s =>
      { s with extractedData := some d, status := some .processing }
  | .o1 .parseFail, s => { s with status := some .flagged }
  | .o1 .actionFail, s => s
  | .o2 (.parsed v), s => { s with validationResults := some v }
  | .o2 .failed, s => s
  | .o3 (.parsed c k), s => { s with category := c, confidence := k }
  | .o3 .failed, s => s
  | .o4 (.parsed a), s =>
      { s with anomalies := a,
               status := some (if anomFlag a then .flagged else .validated) }
  | .o4 .failed, s => s
  | .o5 (.responded r), s =>
      { s with report := some r.trim, status := some .completed }
  | .o5 .actionFail, s => s

/-- An external `setState` payload touching only `documentPath`,
`documentContent` and `status` (as the demo does, src lines 333–337);
`none` means the field is absent from the partial update. -/
structure ExtUpd where
  documentPath : Option String := none
  documentContent : Option String := none
  status : Option InvStatus := none

/-- Merging an external partial update: provided fields overwrite, absent
fields are untouched. -/
def applyExt (u : ExtUpd) (s : InvState) : InvState :=
  { s with
    documentPath := match u.documentPath with
      | some v => some v
      | none => s.documentPath
    documentContent := match u.documentContent with
      | some v => some v
      | none => s.documentContent
    status := match u.status with
      | some v => some v
      | none => s.status }

/-- A pipeline Run: the state, the `consumed` flag of each of the five
`once` triggers, and the Pending Set of dispatched-but-uncompleted
stages. -/
structure PConfig where
  state : InvState
  consumed : Stage → Bool
  pending : List Stage

/-- The effect of an external `setState` on a pipeline Run. -/
def extStep (u : ExtUpd) (c : PConfig) : PConfig :=
  { c with state := applyExt u c.state }

/-- The effect of dispatching stage `k`: its `once` trigger is consumed
immediately and the stage enters the Pending Set. -/
def dispatchStep (k : Stage) (c : PConfig) : PConfig :=
  { c with consumed := fun j => if j = k then true else c.consumed j
           pending := c.pending ++ [k] }

/-- The effect of delivering stage completion `o`: its Pending Set entry is
cleared and its handler's writes are applied. -/
def completeStep (o : StageOutcome) (c : PConfig) : PConfig :=
  { c with state := o.apply c.state
           pending := c.pending.erase o.stage }

/-- Modelled from the spec: one observable step of the pipeline Run — an
external `setState` (restricted by `P`), the dispatch of an unconsumed
trigger whose predicate currently holds (which consumes it and enters it
into the Pending Set), or the delivery of a pending stage's completion
(which clears its Pending Set entry and applies its handler's writes).
Dispatch is allowed whenever the guard holds, an over-approximation of the
engine's evaluation rounds. -/
inductive PStep (P : ExtUpd → Prop) : PConfig → PConfig → Prop
  | external (c : PConfig) (u : ExtUpd) (hu : P u) :
      PStep P c (extStep u c)
  | dispatch (c : PConfig) (k : Stage) (hg : guardOf k c.state = true)
      (hc : c.consumed k = false) :
      PStep P c (dispatchStep k c)
  | complete (c : PConfig) (o : StageOutcome) (hp : o.stage ∈ c.pending) :
      PStep P c (completeStep o c)

/-- The demo agent's initial configuration: `initialState` is
`{ status: 'pending' }` (src lines 52–55), nothing consumed, nothing
pending. -/
def pInit : PConfig :=
  { state := { status := some .pending }
    consumed := fun _ => false
    pending := [] }

/-- Any external update (the claim as stated constrains only which fields
are set). -/
def AnyExt (_ : ExtUpd) : Prop := True

/-- External updates that never write `status = 'completed'` (the demo only
ever writes `status: 'processing'`, src line 336). -/
def SafeExt (u : ExtUpd) : Prop := u.status ≠ some .completed

/-- The inductive invariant of the restricted pipeline Run: the
completed-implies-defined target together with the stage-chaining facts and
the Pending Set bookkeeping that make it inductive. -/
def Phi (c : PConfig) : Prop :=
  (c.state.status = some .completed →
    c.state.report.isSome = true ∧ c.state.anomalies.isSome = true) ∧
  (c.state.validationResults.isSome = true →
    c.state.extractedData.isSome = true) ∧
  (truthy c.state.category = true →
    c.state.validationResults.isSome = true) ∧
  (c.state.anomalies.isSome = true → truthy c.state.category = true) ∧
  (Stage.s1 ∈ c.pending → c.state.extractedData = none) ∧
  (Stage.s2 ∈ c.pending →
    c.state.validationResults = none ∧ c.state.extractedData.isSome = true) ∧
  (Stage.s3 ∈ c.pending →
    truthy c.state.category = false ∧
    c.state.validationResults.isSome = true) ∧
  (Stage.s4 ∈ c.pending →
    c.state.anomalies = none ∧ truthy c.state.category = true) ∧
  (Stage.s5 ∈ c.pending → c.state.anomalies.isSome = true) ∧
  (∀ k, k ∈ c.pending → c.consumed k = true) ∧
  (∀ k, c.pending.count k ≤ 1)

/-- A sample extracted-data payload for a concrete run. -/
def demoData : ExtractedData :=
  ⟨"ACME Office Supplies Inc.", "2024-10-15", "INV-2024-001234", [],
   (205 : Rat), (17 : Rat), (222 : Rat)⟩

/-- A sample validation payload for a concrete run. -/
def demoVal : ValidationResults := ⟨true, true, []⟩

/-- A concrete full run of the pipeline from the initial configuration:
load the document, then dispatch and successfully complete the five stages
in order. -/
def demoRun : PConfig :=
  completeStep (.o5 (.responded "Routine office-supply invoice."))
    (dispatchStep .s5
      (completeStep (.o4 (.parsed (some [])))
        (dispatchStep .s4
          (completeStep (.o3 (.parsed (some "Office Supplies") (some 1)))
            (dispatchStep .s3
              (completeStep (.o2 (.parsed demoVal))
                (dispatchStep .s2
                  (completeStep (.o1 (.parsed demoData))
                    (dispatchStep .s1
                      (extStep { documentContent := some "ACME invoice" }
                        pInit))))))))))

end InvoicePipeline

namespace Agentiny

theorem merge_cons (s : State α) (fv : Field × α) (p : Upd α) :
    merge s (fv :: p) = merge (setField s fv.1 fv.2) p := rfl

theorem merge_apply (s : State α) (p : Upd α) (f : Field) :
    merge s p f = match lookupField p f with
                  | some v => some v
                  | none => s f := by
  induction p generalizing s with
  | nil => simp [merge, lookupField]
  | cons fv p ih =>
    rw [merge_cons, ih]
    simp only [lookupField]
    cases h : lookupField p f with
    | some v => simp
    | none =>
      simp only [setField]
      by_cases hf : f = fv.1 <;> simp [hf]

theorem lookupField_eq_none_of_notMem (p : Upd α) (f : Field)
    (h : f ∉ p.map Prod.fst) : lookupField p f = none := by
  induction p with
  | nil => rfl
  | cons fv p ih =>
    simp only [List.map_cons, List.mem_cons] at h
    push_neg at h
    simp [lookupField, ih h.2, h.1]

theorem merge_apply_notMem (s : State α) (p : Upd α) (f : Field)
    (h : f ∉ p.map Prod.fst) : merge s p f = s f := by
  rw [merge_apply, lookupField_eq_none_of_notMem p f h]

theorem merge_apply_of_lookup (s : State α) (p : Upd α) (f : Field) (v : α)
    (h : lookupField p f = some v) : merge s p f = some v := by
  rw [merge_apply, h]

theorem mergeChanged_false_iff [DecidableEq α] (s : State α) (p : Upd α) :
    mergeChanged s p = false ↔ ∀ fv ∈ p, merge s p fv.1 = s fv.1 := by
  simp [mergeChanged]

theorem merge_eq_self_of_not_changed [DecidableEq α] (s : State α) (p : Upd α)
    (h : mergeChanged s p = false) : merge s p = s := by
  funext f
  by_cases hf : f ∈ p.map Prod.fst
  · rcases List.mem_map.mp hf with ⟨fv, hfv, hfst⟩
    subst hfst
    exact (mergeChanged_false_iff s p).mp h fv hfv
  · exact merge_apply_notMem s p f hf

theorem lookupField_isSome_mem (p : Upd α) (f : Field) (v : α)
    (h : lookupField p f = some v) : f ∈ p.map Prod.fst := by
  by_contra hc
  rw [lookupField_eq_none_of_notMem p f hc] at h
  exact Option.noConfusion h

/-- C6: merging partial updates that touch no common field commutes. -/
theorem merge_disjoint_comm (s : State α) (A B : Upd α)
    (h : ∀ f ∈ A.map Prod.fst, f ∉ B.map Prod.fst) :
    merge (merge s A) B = merge (merge s B) A := by
  funext f
  rw [merge_apply (merge s A) B f, merge_apply (merge s B) A f,
      merge_apply s A f, merge_apply s B f]
  cases hLA : lookupField A f with
  | none => cases hLB : lookupField B f <;> simp
  | some v =>
    rw [lookupField_eq_none_of_notMem B f (h f (lookupField_isSome_mem A f v hLA))]

theorem merge_disjoint_comm_witness :
    merge (merge (stateOf ([] : Upd Nat)) [("a", 1)]) [("b", 2)] =
      merge (merge (stateOf ([] : Upd Nat)) [("b", 2)]) [("a", 1)] :=
  merge_disjoint_comm (stateOf []) [("a", 1)] [("b", 2)] (by decide)

theorem deliver_status [DecidableEq α] (c : Config α) (i : Nat) :
    (deliver c i).status = c.status := by
  unfold deliver
  cases c.pending[i]? with
  | none => rfl
  | some r =>
    cases c.status with
    | running =>
      cases r with
      | error e => rfl
      | ok p =>
        by_cases hc : mergeChanged c.state p = true <;> simp [hc]
    | idle => rfl
    | stopped => rfl

theorem deliver_state_ok [DecidableEq α] (c : Config α) (i : Nat) (p : Upd α)
    (hst : c.status = .running) (hp : c.pending[i]? = some (.ok p)) :
    (deliver c i).state = merge c.state p ∧
      (deliver c i).pending = c.pending.eraseIdx i := by
  unfold deliver
  rw [hp, hst]
  by_cases hc : mergeChanged c.state p = true
  · simp [hc]
  · rw [Bool.not_eq_true] at hc
    simp [hc, merge_eq_self_of_not_changed c.state p hc]

/-- C5: with two dispatched actions whose completions both write field `f`
— the one at pending position `i` dispatched before the one at position
`j` — delivering `j`'s completion first and `i`'s afterwards leaves `f`
holding the later-completing (earlier-dispatched) action's value: the
field's final value is decided by completion order. -/
theorem merge_lww_completion_order [DecidableEq α] (c : Config α)
    (i j : Nat) (pX pY : Upd α) (f : Field) (vX vY : α)
    (hij : i < j) (hst : c.status = .running)
    (hi : c.pending[i]? = some (.ok pX)) (hj : c.pending[j]? = some (.ok pY))
    (hfX : lookupField pX f = some vX) (_hfY : lookupField pY f = some vY) :
    (deliver (deliver c j) i).state = merge (merge c.state pY) pX ∧
      (deliver (deliver c j) i).state f = some vX := by
  obtain ⟨hs1, hp1⟩ := deliver_state_ok c j pY hst hj
  have hst1 : (deliver c j).status = Status.running := by
    rw [deliver_status]; exact hst
  have hi' : (deliver c j).pending[i]? = some (.ok pX) := by
    rw [hp1, List.getElem?_eraseIdx, if_pos hij]; exact hi
  obtain ⟨hs2, _⟩ := deliver_state_ok (deliver c j) i pX hst1 hi'
  rw [hs2, hs1]
  exact ⟨rfl, merge_apply_of_lookup _ pX f vX hfX⟩

theorem merge_lww_completion_order_witness :
    (deliver (deliver lwwCfg 1) 0).state "x" = some 10 :=
  (merge_lww_completion_order lwwCfg 0 1 [("x", 10)] [("x", 20)] "x" 10 20
    (by decide) rfl rfl rfl rfl rfl).2

theorem deliver_stopped_state [DecidableEq α] (c : Config α) (i : Nat)
    (h : c.status = .stopped) :
    (deliver c i).state = c.state ∧ (deliver c i).status = .stopped := by
  refine ⟨?_, by rw [deliver_status]; exact h⟩
  unfold deliver
  rw [h]
  cases c.pending[i]? with
  | none => rfl
  | some r => rfl

/-- C8: `stop()` moves the Run to `STOPPED`, and the completions of any
actions still in flight at that moment — delivered in any number and any
order afterwards — never mutate the state observed via `getState`. -/
theorem stop_discards_late_completions [DecidableEq α] (c : Config α)
    (is : List Nat) :
    (Config.stop c).status = .stopped ∧
      (is.foldl deliver c.stop).getState = c.getState ∧
      (is.foldl deliver c.stop).status = .stopped := by
  have key : ∀ (js : List Nat) (d : Config α), d.status = .stopped →
      (js.foldl deliver d).state = d.state ∧
        (js.foldl deliver d).status = .stopped := by
    intro js
    induction js with
    | nil => exact fun d hd => ⟨rfl, hd⟩
    | cons i js ih =>
      intro d hd
      obtain ⟨h1, h2⟩ := deliver_stopped_state d i hd
      obtain ⟨h3, h4⟩ := ih (deliver d i) h2
      exact ⟨h3.trans h1, h4⟩
  obtain ⟨h1, h2⟩ := key is c.stop rfl
  exact ⟨rfl, h1, h2⟩

theorem deliver_error_spec [DecidableEq α] (c : Config α) (i : Nat)
    (e : String) (hst : c.status = .running)
    (hp : c.pending[i]? = some (.error e)) :
    (deliver c i).state = c.state ∧
      (deliver c i).pending = c.pending.eraseIdx i ∧
      (deliver c i).errors = c.errors ++ [e] := by
  unfold deliver
  rw [hp, hst]
  exact ⟨rfl, rfl, rfl⟩

/-- C4: generally, a failed action's completion is cleared from the Pending
Set without merging anything into state, and the Error Sink receives
exactly that one error; concretely, in the Scenario 3 run the field `b`
the failing action was supposed to set stays unset, the downstream trigger
gated on `b` never fires (its fire count is 0), the Run still reaches
quiescence (`settle` resolves), and the Error Sink holds exactly one
error. -/
theorem action_failure_isolated :
    (∀ (β : Type) (_inst : DecidableEq β) (c : Config β) (i : Nat)
        (e : String), c.status = .running →
        c.pending[i]? = some (.error e) →
        (deliver c i).state = c.state ∧
          (deliver c i).pending = c.pending.eraseIdx i ∧
          (deliver c i).errors = c.errors ++ [e]) ∧
      c4run.state "b" = none ∧ c4run.counts = [1, 0] ∧
      quiescentB c4run = true ∧ c4run.errors = ["parse failure"] :=
  ⟨fun _ _ c i e hst hp => deliver_error_spec c i e hst hp,
   rfl, rfl, rfl, rfl⟩

theorem action_failure_isolated_witness :
    (deliver errCfg 0).errors = [] ++ ["boom"] :=
  (action_failure_isolated.1 Nat inferInstance errCfg 0 "boom" rfl rfl).2.2

/-- C3 counterexample: in the Scenario 2 run (an `ALWAYS` trigger with
predicate `count < 3` whose action increments `count`, starting from
`count = 0`), the loop terminates but the final `count` is 1, not 3: the
edge-triggered rule suppresses re-firing while the predicate stays
continuously true, so the trigger fires only in the initial round. -/
theorem always_increment_final_count_ne_three :
    quiescentB (drain 10 (startRun c3cfg)) = true ∧
      (drain 10 (startRun c3cfg)).state "count" = some 1 ∧
      ¬(drain 10 (startRun c3cfg)).state "count" = some 3 :=
  ⟨rfl, rfl, by decide⟩

/-- C3 amended: in the Scenario 2 run, the evaluation loop terminates
(`settle` resolves) with final `count = 1` — the edge-triggered rule
prevents any re-firing while the predicate stays continuously true, so the
trigger fires exactly once. -/
theorem always_increment_terminates_count_one :
    settleResolves (startRun c3cfg) ∧
      quiescentB (drain 10 (startRun c3cfg)) = true ∧
      (drain 10 (startRun c3cfg)).state "count" = some 1 ∧
      (drain 10 (startRun c3cfg)).counts = [1] :=
  ⟨⟨10, rfl⟩, rfl, rfl, rfl⟩

theorem getElem?_zipWith_some {β γ δ : Type _} {f : β → γ → δ} {l₁ : List β}
    {l₂ : List γ} {i : Nat} {x : β} {y : γ}
    (h₁ : l₁[i]? = some x) (h₂ : l₂[i]? = some y) :
    (List.zipWith f l₁ l₂)[i]? = some (f x y) := by
  rw [List.getElem?_zipWith', h₁, h₂]
  rfl

theorem getElem?_zipWith_noneR {β γ δ : Type _} {f : β → γ → δ} {l₁ : List β}
    {l₂ : List γ} {i : Nat} (h₂ : l₂[i]? = none) :
    (List.zipWith f l₁ l₂)[i]? = none := by
  rw [List.getElem?_zipWith', h₂]
  cases l₁[i]? <;> rfl

theorem evalOne_once_consumed (snap : State α) (t : Trigger α) (rt : TrigRT)
    (hm : t.mode = .once) (hc : rt.consumed = true) :
    evalOne snap t rt = ⟨false, rt, [], []⟩ := by
  obtain ⟨p, as, m⟩ := t
  obtain ⟨co, pm⟩ := rt
  replace hm : m = Mode.once := hm
  replace hc : co = true := hc
  subst hm
  subst hc
  rfl

theorem evalOne_error (snap : State α) (t : Trigger α) (rt : TrigRT)
    (e : String) (hne : t.mode = .once → rt.consumed = false)
    (he : t.pred snap = .error e) :
    evalOne snap t rt = ⟨false, ⟨rt.consumed, some false⟩, [e], []⟩ := by
  obtain ⟨p, as, m⟩ := t
  obtain ⟨co, pm⟩ := rt
  replace he : p snap = .error e := he
  cases m with
  | once =>
    replace hne : co = false := hne rfl
    subst hne
    show (match p snap with
      | .error e => ⟨false, ⟨false, some false⟩, [e], []⟩
      | .ok b => _) = EvalRes.mk false ⟨false, some false⟩ [e] []
    rw [he]
  | always =>
    show (match p snap with
      | .error e => ⟨false, ⟨co, some false⟩, [e], []⟩
      | .ok b => _) = EvalRes.mk false ⟨co, some false⟩ [e] []
    rw [he]

theorem evalOne_once_fresh (snap : State α) (t : Trigger α) (rt : TrigRT)
    (b : Bool) (hm : t.mode = .once) (hc : rt.consumed = false)
    (hb : t.pred snap = .ok b) :
    evalOne snap t rt =
      ⟨b, ⟨b, some b⟩, [],
       if b then t.actions.map (fun a => a snap) else []⟩ := by
  obtain ⟨p, as, m⟩ := t
  obtain ⟨co, pm⟩ := rt
  replace hm : m = Mode.once := hm
  replace hc : co = false := hc
  replace hb : p snap = .ok b := hb
  subst hm
  subst hc
  show (match p snap with
    | .error e => ⟨false, ⟨false, some false⟩, [e], []⟩
    | .ok b => _) = EvalRes.mk b ⟨b, some b⟩ []
      (if b then as.map (fun a => a snap) else [])
  rw [hb]
  cases b <;> rfl

theorem evalOne_always (snap : State α) (t : Trigger α) (rt : TrigRT)
    (b : Bool) (hm : t.mode = .always) (hb : t.pred snap = .ok b) :
    evalOne snap t rt =
      ⟨b && (rt.prevMatch != some true), ⟨rt.consumed, some b⟩, [],
       if b && (rt.prevMatch != some true) then
         t.actions.map (fun a => a snap)
       else []⟩ := by
  obtain ⟨p, as, m⟩ := t
  obtain ⟨co, pm⟩ := rt
  replace hm : m = Mode.always := hm
  replace hb : p snap = .ok b := hb
  subst hm
  show (match p snap with
    | .error e => ⟨false, ⟨co, some false⟩, [e], []⟩
    | .ok b => _) = EvalRes.mk (b && (pm != some true)) ⟨co, some b⟩ []
      (if b && (pm != some true) then as.map (fun a => a snap) else [])
  rw [hb]
  cases hf : b && (pm != some true) <;> simp [hf]

theorem runRound_state [DecidableEq α] (c : Config α) :
    (runRound c).state = c.state := rfl

theorem runRound_trigs [DecidableEq α] (c : Config α) :
    (runRound c).trigs = c.trigs := rfl

theorem runRound_status [DecidableEq α] (c : Config α) :
    (runRound c).status = c.status := rfl

theorem runRound_sched [DecidableEq α] (c : Config α) :
    (runRound c).roundScheduled = false := rfl

theorem runRound_rts_getElem [DecidableEq α] (c : Config α) {i : Nat}
    {t : Trigger α} {rt : TrigRT} (ht : c.trigs[i]? = some t)
    (hrt : c.rts[i]? = some rt) :
    (runRound c).rts[i]? = some (evalOne c.state t rt).rt := by
  show ((List.zipWith (evalOne c.state) c.trigs c.rts).map
    (fun r => r.rt))[i]? = _
  rw [List.getElem?_map, getElem?_zipWith_some ht hrt]
  rfl

theorem runRound_rts_inv [DecidableEq α] (c : Config α) {i : Nat}
    {t : Trigger α} {rt : TrigRT} (ht : c.trigs[i]? = some t)
    (hrt : (runRound c).rts[i]? = some rt) :
    ∃ rt₀, c.rts[i]? = some rt₀ ∧ rt = (evalOne c.state t rt₀).rt := by
  cases h0 : c.rts[i]? with
  | none =>
    rw [show (runRound c).rts[i]? = none from by
      show ((List.zipWith (evalOne c.state) c.trigs c.rts).map
        (fun r => r.rt))[i]? = none
      rw [List.getElem?_map, getElem?_zipWith_noneR h0]
      rfl] at hrt
    exact Option.noConfusion hrt
  | some rt₀ =>
    rw [runRound_rts_getElem c ht h0] at hrt
    exact ⟨rt₀, rfl, (Option.some.injEq _ _ ▸ hrt).symm⟩

theorem runRound_counts_getElem [DecidableEq α] (c : Config α) {i : Nat}
    {t : Trigger α} {rt : TrigRT} {n : Nat} (ht : c.trigs[i]? = some t)
    (hrt : c.rts[i]? = some rt) (hn : c.counts[i]? = some n) :
    (runRound c).counts[i]? =
      some (n + if (evalOne c.state t rt).fired then 1 else 0) := by
  show (List.zipWith _ c.counts
    (List.zipWith (evalOne c.state) c.trigs c.rts))[i]? = _
  rw [getElem?_zipWith_some hn (getElem?_zipWith_some ht hrt)]

theorem runRound_errors_mem [DecidableEq α] (c : Config α) {i : Nat}
    {t : Trigger α} {rt : TrigRT} {e : String} (ht : c.trigs[i]? = some t)
    (hrt : c.rts[i]? = some rt)
    (he : (evalOne c.state t rt).errs = [e]) :
    e ∈ (runRound c).errors := by
  show e ∈ c.errors ++
    ((List.zipWith (evalOne c.state) c.trigs c.rts).map
      (fun r => r.errs)).flatten
  refine List.mem_append.mpr (Or.inr (List.mem_flatten.mpr ⟨[e], ?_, ?_⟩))
  · rw [← he]
    exact List.mem_map_of_mem _
      (List.getElem?_mem (getElem?_zipWith_some ht hrt))
  · exact List.mem_singleton.mpr rfl

/-- C9: from `IDLE`, `start` succeeds, transitions the Run to `RUNNING`,
and runs an initial evaluation round against the current (unmutated)
state, in which a `ONCE` trigger whose predicate is already satisfied
fires (its fire count increments and it is consumed). -/
theorem start_runs_initial_round [DecidableEq α] (c : Config α) (i : Nat)
    (t : Trigger α) (n : Nat) (hidle : c.status = .idle)
    (ht : c.trigs[i]? = some t) (hm : t.mode = .once)
    (hrt : c.rts[i]? = some TrigRT.init) (hp : t.pred c.state = .ok true)
    (hn : c.counts[i]? = some n) :
    c.start = .ok (startRun c) ∧ (startRun c).status = .running ∧
      (startRun c).state = c.state ∧
      (startRun c).counts[i]? = some (n + 1) ∧
      (startRun c).rts[i]? = some ⟨true, some true⟩ := by
  refine ⟨?_, rfl, rfl, ?_, ?_⟩
  · unfold Config.start
    rw [hidle]
  · unfold startRun
    rw [runRound_counts_getElem { c with status := .running } ht hrt hn,
        evalOne_once_fresh c.state t TrigRT.init true hm rfl hp]
    rfl
  · unfold startRun
    rw [runRound_rts_getElem { c with status := .running } ht hrt,
        evalOne_once_fresh c.state t TrigRT.init true hm rfl hp]

theorem start_runs_initial_round_witness :
    c9cfg.start = .ok (startRun c9cfg) ∧
      (startRun c9cfg).counts[0]? = some 1 := by
  have h := start_runs_initial_round c9cfg 0 c9trig 0 rfl rfl rfl rfl rfl rfl
  exact ⟨h.1, h.2.2.2.1⟩

/-- C7: a trigger whose predicate throws during a round is treated as a
non-match (it does not fire, its fire count is unchanged, its previous
match is recorded false), the thrown error is reported through the Error
Sink, and every other registered trigger is still evaluated exactly as
usual — the round is not aborted. -/
theorem predicate_error_round_continues [DecidableEq α] (c : Config α)
    (i : Nat) (t : Trigger α) (rt : TrigRT) (e : String) (n : Nat)
    (ht : c.trigs[i]? = some t) (hrt : c.rts[i]? = some rt)
    (hne : t.mode = .once → rt.consumed = false)
    (he : t.pred c.state = .error e) (hn : c.counts[i]? = some n) :
    (runRound c).rts[i]? = some ⟨rt.consumed, some false⟩ ∧
      (runRound c).counts[i]? = some n ∧
      e ∈ (runRound c).errors ∧
      (∀ (j : Nat) (u : Trigger α) (ru : TrigRT), c.trigs[j]? = some u →
        c.rts[j]? = some ru →
        (runRound c).rts[j]? = some (evalOne c.state u ru).rt) := by
  have hev := evalOne_error c.state t rt e hne he
  refine ⟨?_, ?_, ?_, fun j u ru hu hru => runRound_rts_getElem c hu hru⟩
  · rw [runRound_rts_getElem c ht hrt, hev]
  · rw [runRound_counts_getElem c ht hrt hn, hev]
    rfl
  · exact runRound_errors_mem c ht hrt (by rw [hev])

theorem predicate_error_round_continues_witness :
    (runRound c7cfg).rts[0]? = some ⟨false, some false⟩ ∧
      "boom" ∈ (runRound c7cfg).errors := by
  have h := predicate_error_round_continues c7cfg 0 c7bad TrigRT.init
    "boom" 0 rfl rfl (fun _ => rfl) rfl rfl
  exact ⟨h.1, h.2.2.1⟩

theorem deliver_parts [DecidableEq α] (c : Config α) (i : Nat) :
    (deliver c i).trigs = c.trigs ∧ (deliver c i).rts = c.rts ∧
      (deliver c i).counts = c.counts := by
  unfold deliver
  cases c.pending[i]? with
  | none => exact ⟨rfl, rfl, rfl⟩
  | some r =>
    cases c.status with
    | running =>
      cases r with
      | error e => exact ⟨rfl, rfl, rfl⟩
      | ok p =>
        by_cases hc : mergeChanged c.state p = true <;> simp [hc]
    | idle => exact ⟨rfl, rfl, rfl⟩
    | stopped => exact ⟨rfl, rfl, rfl⟩

theorem onceOK_runRound [DecidableEq α] {c : Config α} (h : OnceOK c) :
    OnceOK (runRound c) := by
  intro i t ht hm
  rw [runRound_trigs] at ht
  obtain ⟨rt, n, hrt, hn, hle, hz⟩ := h i t ht hm
  refine ⟨(evalOne c.state t rt).rt,
    n + (if (evalOne c.state t rt).fired then 1 else 0),
    runRound_rts_getElem c ht hrt, runRound_counts_getElem c ht hrt hn,
    ?_, ?_⟩
  · cases hc : rt.consumed with
    | true =>
      rw [evalOne_once_consumed c.state t rt hm hc]
      simpa using hle
    | false =>
      rw [hz hc]
      cases (evalOne c.state t rt).fired <;> simp
  · intro hcf
    cases hc : rt.consumed with
    | true =>
      rw [evalOne_once_consumed c.state t rt hm hc] at hcf
      rw [hc] at hcf
      exact Bool.noConfusion hcf
    | false =>
      cases hp : t.pred c.state with
      | error e =>
        rw [evalOne_error c.state t rt e (fun _ => hc) hp]
        simp [hz hc]
      | ok b =>
        rw [evalOne_once_fresh c.state t rt b hm hc hp] at hcf ⊢
        cases b with
        | true => exact Bool.noConfusion hcf
        | false => simp [hz hc]

theorem onceOK_step [DecidableEq α] {c c' : Config α} (hs : Step c c')
    (h : OnceOK c) : OnceOK c' := by
  cases hs with
  | start hidle => exact onceOK_runRound h
  | round hrun hsched => exact onceOK_runRound h
  | deliver i =>
    intro j t ht hm
    obtain ⟨h1, h2, h3⟩ := deliver_parts c i
    rw [h1] at ht
    obtain ⟨rt, n, hrt, hn, hle, hz⟩ := h j t ht hm
    exact ⟨rt, n, by rw [h2]; exact hrt, by rw [h3]; exact hn, hle, hz⟩
  | ext p => exact fun j t ht hm => h j t ht hm
  | halt => exact fun j t ht hm => h j t ht hm

theorem onceOK_reaches [DecidableEq α] {c₀ c : Config α} (h0 : OnceOK c₀)
    (h : Reaches c₀ c) : OnceOK c := by
  induction h with
  | refl => exact h0
  | tail _ hs ih => exact onceOK_step hs ih

theorem onceOK_mkConfig [DecidableEq α] (s : Upd α) (ts : List (Trigger α)) :
    OnceOK (mkConfig s ts) := by
  intro i t ht _
  have hi : i < ts.length := (List.getElem?_eq_some.mp ht).1
  refine ⟨TrigRT.init, 0, ?_, ?_, Nat.zero_le 1, fun _ => rfl⟩
  · show (List.replicate ts.length TrigRT.init)[i]? = some TrigRT.init
    rw [List.getElem?_replicate, if_pos hi]
  · show (List.replicate ts.length 0)[i]? = some 0
    rw [List.getElem?_replicate, if_pos hi]

/-- C1: along every Run evolution — any interleaving of `start`,
evaluation rounds, completion deliveries, external `setState` calls and
`stop` — a trigger registered in `ONCE` mode has its action list
dispatched in at most one round, however many rounds its predicate keeps
satisfying. -/
theorem once_trigger_fires_at_most_once [DecidableEq α] (c₀ c : Config α)
    (h0 : OnceOK c₀) (hr : Reaches c₀ c) (i : Nat) (t : Trigger α) (n : Nat)
    (ht : c.trigs[i]? = some t) (hm : t.mode = .once)
    (hn : c.counts[i]? = some n) : n ≤ 1 := by
  obtain ⟨rt, n', hrt, hn', hle, _⟩ := onceOK_reaches h0 hr i t ht hm
  rw [hn] at hn'
  cases hn'
  exact hle

theorem noEligible_runRound [DecidableEq α] (c : Config α) :
    noEligible (runRound c) := by
  intro i t rt ht hrt
  rw [runRound_trigs] at ht
  obtain ⟨rt₀, hrt₀, hrteq⟩ := runRound_rts_inv c ht hrt
  subst hrteq
  show eligB c.state t (evalOne c.state t rt₀).rt = false
  cases hm : t.mode with
  | once =>
    cases hc : rt₀.consumed with
    | true =>
      rw [evalOne_once_consumed c.state t rt₀ hm hc]
      simp [eligB, hm, hc]
    | false =>
      cases hp : t.pred c.state with
      | error e =>
        rw [evalOne_error c.state t rt₀ e (fun _ => hc) hp]
        simp [eligB, predTrue, hp]
      | ok b =>
        rw [evalOne_once_fresh c.state t rt₀ b hm hc hp]
        cases b <;> simp [eligB, predTrue, hp, hm]
  | always =>
    cases hp : t.pred c.state with
    | error e =>
      rw [evalOne_error c.state t rt₀ e
        (fun hmo => by rw [hm] at hmo; exact Mode.noConfusion hmo) hp]
      simp [eligB, predTrue, hp]
    | ok b =>
      rw [evalOne_always c.state t rt₀ b hm hp]
      cases b <;> simp [eligB, predTrue, hp, hm]

theorem deliver_spec [DecidableEq α] (c : Config α) (i : Nat) :
    deliver c i = c ∨
      (∃ e, c.pending[i]? = some (.error e) ∧ c.status = .running ∧
        deliver c i = { c with pending := c.pending.eraseIdx i,
                               errors := c.errors ++ [e] }) ∨
      (∃ p, c.pending[i]? = some (.ok p) ∧ c.status = .running ∧
        mergeChanged c.state p = true ∧
        deliver c i = { c with pending := c.pending.eraseIdx i,
                               state := merge c.state p,
                               roundScheduled := true }) ∨
      (∃ p, c.pending[i]? = some (.ok p) ∧ c.status = .running ∧
        mergeChanged c.state p = false ∧
        deliver c i = { c with pending := c.pending.eraseIdx i }) ∨
      (∃ r, c.pending[i]? = some r ∧ c.status ≠ .running ∧
        deliver c i = { c with pending := c.pending.eraseIdx i }) := by
  unfold deliver
  cases hp : c.pending[i]? with
  | none => exact Or.inl rfl
  | some r =>
    cases hst : c.status with
    | running =>
      cases r with
      | error e => exact Or.inr (Or.inl ⟨e, rfl, rfl, rfl⟩)
      | ok p =>
        by_cases hc : mergeChanged c.state p = true
        · exact Or.inr (Or.inr (Or.inl ⟨p, rfl, rfl, hc, by simp [hc]⟩))
        · refine Or.inr (Or.inr (Or.inr (Or.inl
            ⟨p, rfl, rfl, Bool.not_eq_true _ ▸ hc, by simp [hc]⟩)))
    | idle =>
      exact Or.inr (Or.inr (Or.inr (Or.inr
        ⟨r, rfl, fun hcon => Status.noConfusion hcon, rfl⟩)))
    | stopped =>
      exact Or.inr (Or.inr (Or.inr (Or.inr
        ⟨r, rfl, fun hcon => Status.noConfusion hcon, rfl⟩)))

theorem settleInv_step [DecidableEq α] {c c' : Config α} (hs : Step c c')
    (h : SettleInv c) : SettleInv c' := by
  cases hs with
  | start hidle => exact fun _ _ => noEligible_runRound _
  | round hrun hsched => exact fun _ _ => noEligible_runRound c
  | deliver i =>
    rcases deliver_spec c i with heq | ⟨e, _, _, heq⟩ | ⟨p, _, _, _, heq⟩ |
      ⟨p, _, _, hmc, heq⟩ | ⟨r, _, hne, heq⟩
    · rw [heq]; exact h
    · rw [heq]
      intro hst hsch
      exact fun j t rt hj hr => h hst hsch j t rt hj hr
    · rw [heq]
      intro _ hsch
      exact Bool.noConfusion hsch
    · rw [heq]
      intro hst hsch
      exact fun j t rt hj hr => h hst hsch j t rt hj hr
    · rw [heq]
      intro hst _
      exact absurd hst hne
  | ext p =>
    intro hst hsch
    have hst' : c.status = .running := hst
    have hor : c.roundScheduled = false ∧
        (mergeChanged c.state p && decide (c.status = .running)) = false :=
      Bool.or_eq_false_iff.mp hsch
    have hmc : mergeChanged c.state p = false := by
      rcases Bool.and_eq_false_iff.mp hor.2 with hmc | hdec
      · exact hmc
      · rw [hst'] at hdec
        exact absurd hdec (by simp)
    have hstate : merge c.state p = c.state :=
      merge_eq_self_of_not_changed c.state p hmc
    intro j t rt hj hr
    show eligB (merge c.state p) t rt = false
    rw [hstate]
    exact h hst' hor.1 j t rt hj hr
  | halt =>
    intro hst _
    exact Status.noConfusion hst

theorem settleInv_reaches [DecidableEq α] {c₀ c : Config α}
    (h0 : SettleInv c₀) (h : Reaches c₀ c) : SettleInv c := by
  induction h with
  | refl => exact h0
  | tail _ hs ih => exact settleInv_step hs ih

theorem schedStep_none_of_quiescent [DecidableEq α] (c : Config α)
    (h : quiescentB c = true) : schedStep c = none := by
  unfold quiescentB at h
  rw [Bool.and_eq_true] at h
  have hp : c.pending = [] := List.isEmpty_iff.mp h.1
  have hs : c.roundScheduled = false := Bool.not_eq_true' _ ▸ h.2
  unfold schedStep
  rw [hs, hp]
  rfl

theorem drain_fix [DecidableEq α] (c : Config α) (h : quiescentB c = true) :
    ∀ n, drain n c = c := by
  intro n
  cases n with
  | zero => rfl
  | succ n =>
    unfold drain
    rw [schedStep_none_of_quiescent c h]

theorem schedStep_isStep [DecidableEq α] {c c' : Config α}
    (h : schedStep c = some c') : Step c c' := by
  unfold schedStep at h
  by_cases hb : (c.roundScheduled && decide (c.status = .running)) = true
  · rw [if_pos hb] at h
    cases h
    rw [Bool.and_eq_true] at hb
    exact Step.round c (of_decide_eq_true hb.2) hb.1
  · rw [if_neg hb] at h
    cases hp : c.pending with
    | nil => rw [hp] at h; exact Option.noConfusion h
    | cons r rest => rw [hp] at h; cases h; exact Step.deliver c 0

theorem drain_reaches [DecidableEq α] (c : Config α) (n : Nat) :
    Reaches c (drain n c) := by
  induction n generalizing c with
  | zero => exact Relation.ReflTransGen.refl
  | succ n ih =>
    unfold drain
    cases hs : schedStep c with
    | none => exact Relation.ReflTransGen.refl
    | some c' => exact Relation.ReflTransGen.head (schedStep_isStep hs) (ih c')

/-- C2: along every Run evolution from an idle configuration, `settle`
resolves exactly when the engine reaches a point with an empty Pending Set
and no scheduled round; at any such point that is still running, no
registered trigger currently matches in the fireable sense; and when the
Run is already quiescent, `settle` resolves at once (the scheduler never
leaves a quiescent configuration). -/
theorem settle_resolves_iff_quiescent [DecidableEq α] (c₀ c : Config α)
    (h0 : c₀.status = .idle) (hr : Reaches c₀ c) :
    (settleResolves c ↔
      ∃ n, (drain n c).pending = [] ∧ (drain n c).roundScheduled = false) ∧
      (∀ n, quiescentB (drain n c) = true → (drain n c).status = .running →
        noEligible (drain n c)) ∧
      (quiescentB c = true → settleResolves c ∧ ∀ n, drain n c = c) := by
  have hinv : SettleInv c :=
    settleInv_reaches
      (fun hst _ => by rw [h0] at hst; exact Status.noConfusion hst) hr
  refine ⟨?_, ?_, ?_⟩
  · constructor
    · rintro ⟨n, hn⟩
      rw [quiescentB, Bool.and_eq_true] at hn
      exact ⟨n, List.isEmpty_iff.mp hn.1, Bool.not_eq_true' _ ▸ hn.2⟩
    · rintro ⟨n, h1, h2⟩
      refine ⟨n, ?_⟩
      rw [quiescentB, h1, h2]
      rfl
  · intro n hq hst
    have hinv' : SettleInv (drain n c) :=
      settleInv_reaches hinv (drain_reaches c n)
    rw [quiescentB, Bool.and_eq_true] at hq
    exact hinv' hst (Bool.not_eq_true' _ ▸ hq.2)
  · intro hq
    exact ⟨⟨0, hq⟩, drain_fix c hq⟩

theorem settle_resolves_iff_quiescent_witness :
    settleResolves (startRun (mkConfig ([] : Upd Nat) [])) :=
  ((settle_resolves_iff_quiescent (mkConfig ([] : Upd Nat) [])
      (startRun (mkConfig ([] : Upd Nat) [])) rfl
      (Relation.ReflTransGen.single
        (Step.start (mkConfig ([] : Upd Nat) []) rfl))).2.2 rfl).1

theorem once_trigger_fires_at_most_once_witness :
    ∃ n, (startRun c1cfg).counts[0]? = some n ∧ n ≤ 1 :=
  ⟨1, rfl,
   once_trigger_fires_at_most_once c1cfg (startRun c1cfg)
     (onceOK_mkConfig [] [c1trig])
     (Relation.ReflTransGen.single (Step.start c1cfg rfl)) 0 c1trig 1
     rfl rfl rfl⟩

end Agentiny

namespace InvoicePipeline

theorem isSome_of_truthy {o : Option String} (h : truthy o = true) :
    o.isSome = true := by
  cases o with
  | none => exact Bool.noConfusion h
  | some s => rfl

theorem not_mem_erase_self {l : List Stage} {k : Stage}
    (h : l.count k ≤ 1) : k ∉ l.erase k := by
  intro hmem
  have h1 : 0 < (l.erase k).count k := List.count_pos_iff.mpr hmem
  rw [List.count_erase] at h1
  simp only [beq_self_eq_true, if_true] at h1
  omega

theorem phi_init : Phi pInit := by
  simp [Phi, pInit, truthy]

theorem phi_step {c c' : PConfig} (hs : PStep SafeExt c c') (h : Phi c) :
    Phi c' := by
  obtain ⟨hT, hA1, hA2, hA3, hP1, hP2, hP3, hP4, hP5, hD, hC⟩ := h
  cases hs with
  | external u hu =>
    refine ⟨?_, hA1, hA2, hA3, hP1, hP2, hP3, hP4, hP5, hD, hC⟩
    intro hst
    refine hT ?_
    cases hus : u.status with
    | none =>
      rw [show (extStep u c).state.status = c.state.status from by
        simp [extStep, applyExt, hus]] at hst
      exact hst
    | some v =>
      exfalso
      rw [show (extStep u c).state.status = some v from by
        simp [extStep, applyExt, hus]] at hst
      cases hst
      exact hu hus
  | dispatch k hg hc =>
    have hmem : ∀ {s : Stage}, s ∈ (dispatchStep k c).pending →
        s ∈ c.pending ∨ s = k := by
      intro s hs
      rcases List.mem_append.mp hs with h | h
      · exact Or.inl h
      · exact Or.inr (List.mem_singleton.mp h)
    refine ⟨hT, hA1, hA2, hA3, ?_, ?_, ?_, ?_, ?_, ?_, ?_⟩
    · intro hm
      rcases hmem hm with hm | hk
      · exact hP1 hm
      · subst hk
        simp only [guardOf, Bool.and_eq_true] at hg
        exact Option.isNone_iff_eq_none.mp hg.2
    · intro hm
      rcases hmem hm with hm | hk
      · exact hP2 hm
      · subst hk
        simp only [guardOf, Bool.and_eq_true] at hg
        exact ⟨Option.isNone_iff_eq_none.mp hg.2, hg.1⟩
    · intro hm
      rcases hmem hm with hm | hk
      · exact hP3 hm
      · subst hk
        simp only [guardOf, Bool.and_eq_true] at hg
        exact ⟨Bool.not_eq_true' _ ▸ hg.2, hg.1⟩
    · intro hm
      rcases hmem hm with hm | hk
      · exact hP4 hm
      · subst hk
        simp only [guardOf, Bool.and_eq_true] at hg
        exact ⟨Option.isNone_iff_eq_none.mp hg.2, hg.1⟩
    · intro hm
      rcases hmem hm with hm | hk
      · exact hP5 hm
      · subst hk
        simp only [guardOf, Bool.and_eq_true] at hg
        exact hg.1
    · intro j hj
      show (if j = k then true else c.consumed j) = true
      rcases hmem hj with hj | hk
      · by_cases hjk : j = k <;> simp [hjk, hD j hj]
      · simp [hk]
    · intro j
      show (c.pending ++ [k]).count j ≤ 1
      rw [List.count_append]
      by_cases hjk : j = k
      · subst hjk
        have hnot : j ∉ c.pending := fun hmem' => by
          rw [hD j hmem'] at hc
          exact Bool.noConfusion hc
        rw [List.count_eq_zero.mpr hnot]
        simp [List.count_singleton]
      · have h2 : List.count j [k] = 0 :=
          List.count_eq_zero.mpr (fun hin => hjk (List.mem_singleton.mp hin))
        have h1 := hC j
        omega
  | complete o hp =>
    have hsub : ∀ (j : Stage), ((completeStep o c).pending).count j ≤ 1 :=
      fun j => le_trans ((List.erase_sublist o.stage c.pending).count_le j)
        (hC j)
    have hmem : ∀ {s : Stage}, s ∈ (completeStep o c).pending →
        s ∈ c.pending := fun hs => List.mem_of_mem_erase hs
    have hDer : ∀ j, j ∈ (completeStep o c).pending → c.consumed j = true :=
      fun j hj => hD j (hmem hj)
    cases o with
    | o1 o =>
      cases o with
      | parsed d =>
        refine ⟨?_, fun _ => rfl, hA2, hA3,
          fun hm => absurd hm (not_mem_erase_self (hC Stage.s1)),
          fun hm => ⟨(hP2 (hmem hm)).1, rfl⟩,
          fun hm => hP3 (hmem hm), fun hm => hP4 (hmem hm),
          fun hm => hP5 (hmem hm), hDer, hsub⟩
        intro hst
        simp [completeStep, StageOutcome.apply] at hst
      | parseFail =>
        refine ⟨?_, hA1, hA2, hA3, fun hm => hP1 (hmem hm),
          fun hm => hP2 (hmem hm), fun hm => hP3 (hmem hm),
          fun hm => hP4 (hmem hm), fun hm => hP5 (hmem hm), hDer, hsub⟩
        intro hst
        simp [completeStep, StageOutcome.apply] at hst
      | actionFail =>
        exact ⟨hT, hA1, hA2, hA3, fun hm => hP1 (hmem hm),
          fun hm => hP2 (hmem hm), fun hm => hP3 (hmem hm),
          fun hm => hP4 (hmem hm), fun hm => hP5 (hmem hm), hDer, hsub⟩
    | o2 o =>
      cases o with
      | parsed v =>
        exact ⟨fun hst => hT hst, fun _ => (hP2 hp).2, fun _ => rfl, hA3,
          fun hm => hP1 (hmem hm),
          fun hm => absurd hm (not_mem_erase_self (hC Stage.s2)),
          fun hm => ⟨(hP3 (hmem hm)).1, rfl⟩, fun hm => hP4 (hmem hm),
          fun hm => hP5 (hmem hm), hDer, hsub⟩
      | failed =>
        exact ⟨hT, hA1, hA2, hA3, fun hm => hP1 (hmem hm),
          fun hm => hP2 (hmem hm), fun hm => hP3 (hmem hm),
          fun hm => hP4 (hmem hm), fun hm => hP5 (hmem hm), hDer, hsub⟩
    | o3 o =>
      cases o with
      | parsed cnew knew =>
        exact ⟨fun hst => hT hst, hA1, fun _ => (hP3 hp).2,
          fun han => Bool.noConfusion ((hP3 hp).1.symm.trans (hA3 han)),
          fun hm => hP1 (hmem hm), fun hm => hP2 (hmem hm),
          fun hm => absurd hm (not_mem_erase_self (hC Stage.s3)),
          fun hm => Bool.noConfusion
            ((hP3 hp).1.symm.trans ((hP4 (hmem hm)).2)),
          fun hm => hP5 (hmem hm), hDer, hsub⟩
      | failed =>
        exact ⟨hT, hA1, hA2, hA3, fun hm => hP1 (hmem hm),
          fun hm => hP2 (hmem hm), fun hm => hP3 (hmem hm),
          fun hm => hP4 (hmem hm), fun hm => hP5 (hmem hm), hDer, hsub⟩
    | o4 o =>
      cases o with
      | parsed a =>
        refine ⟨?_, hA1, hA2, fun _ => (hP4 hp).2,
          fun hm => hP1 (hmem hm), fun hm => hP2 (hmem hm),
          fun hm => hP3 (hmem hm),
          fun hm => absurd hm (not_mem_erase_self (hC Stage.s4)), ?_,
          hDer, hsub⟩
        · intro hst
          cases hf : anomFlag a <;>
            simp [completeStep, StageOutcome.apply, hf] at hst
        · intro hm
          have h5 := hP5 (hmem hm)
          rw [(hP4 hp).1] at h5
          exact Bool.noConfusion h5
      | failed =>
        exact ⟨hT, hA1, hA2, hA3, fun hm => hP1 (hmem hm),
          fun hm => hP2 (hmem hm), fun hm => hP3 (hmem hm),
          fun hm => hP4 (hmem hm), fun hm => hP5 (hmem hm), hDer, hsub⟩
    | o5 o =>
      cases o with
      | responded r =>
        exact ⟨fun _ => ⟨rfl, hP5 hp⟩, hA1, hA2, hA3,
          fun hm => hP1 (hmem hm), fun hm => hP2 (hmem hm),
          fun hm => hP3 (hmem hm), fun hm => hP4 (hmem hm),
          fun hm => hP5 (hmem hm), hDer, hsub⟩
      | actionFail =>
        exact ⟨hT, hA1, hA2, hA3, fun hm => hP1 (hmem hm),
          fun hm => hP2 (hmem hm), fun hm => hP3 (hmem hm),
          fun hm => hP4 (hmem hm), fun hm => hP5 (hmem hm), hDer, hsub⟩

theorem phi_reaches {c : PConfig}
    (h : Relation.ReflTransGen (PStep SafeExt) pInit c) : Phi c := by
  induction h with
  | refl => exact phi_init
  | tail _ hs ih => exact phi_step hs ih

/-- C10 counterexample: when external `setState` calls may write any value
into the `status` field (the claim constrains only *which* fields they
set), a single external `setState({status: 'completed'})` from the demo's
initial state reaches a configuration whose status is `'completed'` while
`extractedData` (and every other stage output) is still undefined. -/
theorem external_completed_breaks_invariant :
    Relation.ReflTransGen (PStep AnyExt) pInit
        (extStep { status := some .completed } pInit) ∧
      (extStep { status := some .completed } pInit).state.status
        = some InvStatus.completed ∧
      (extStep { status := some .completed } pInit).state.extractedData
        = none :=
  ⟨Relation.ReflTransGen.single
    (PStep.external pInit { status := some .completed } trivial),
   rfl, rfl⟩

/-- C10 amended: in every run of the five-stage demo pipeline in which
external `setState` calls set only `documentPath`, `documentContent` and
`status` — and never set `status` to `'completed'` — whenever `getState`
reports `status === 'completed'`, the fields `extractedData`,
`validationResults`, `category`, `anomalies` and `report` are all defined:
`'completed'` is then written only by the report stage, whose trigger
requires `anomalies` to be defined, and each earlier stage's trigger
transitively requires the preceding stage's output. -/
theorem completed_status_implies_stages_defined (c : PConfig)
    (h : Relation.ReflTransGen (PStep SafeExt) pInit c)
    (hc : c.state.status = some .completed) :
    c.state.extractedData.isSome = true ∧
      c.state.validationResults.isSome = true ∧
      c.state.category.isSome = true ∧
      c.state.anomalies.isSome = true ∧
      c.state.report.isSome = true := by
  obtain ⟨hT, hA1, hA2, hA3, _⟩ := phi_reaches h
  obtain ⟨hrep, han⟩ := hT hc
  have hcat := hA3 han
  have hvr := hA2 hcat
  exact ⟨hA1 hvr, hvr, isSome_of_truthy hcat, han, hrep⟩

theorem completed_status_implies_stages_defined_witness :
    demoRun.state.status = some InvStatus.completed ∧
      demoRun.state.extractedData.isSome = true ∧
      demoRun.state.validationResults.isSome = true ∧
      demoRun.state.category.isSome = true ∧
      demoRun.state.anomalies.isSome = true ∧
      demoRun.state.report.isSome = true := by
  have h0 : Relation.ReflTransGen (PStep SafeExt) pInit pInit :=
    Relation.ReflTransGen.refl
  have h1 := h0.tail (PStep.external pInit
    { documentContent := some "ACME invoice" }
    (fun hcon => Option.noConfusion hcon))
  have h2 := h1.tail (PStep.dispatch _ Stage.s1 (by decide) (by decide))
  have h3 := h2.tail
    (PStep.complete _ (.o1 (.parsed demoData)) (by decide))
  have h4 := h3.tail (PStep.dispatch _ Stage.s2 (by decide) (by decide))
  have h5 := h4.tail (PStep.complete _ (.o2 (.parsed demoVal)) (by decide))
  have h6 := h5.tail (PStep.dispatch _ Stage.s3 (by decide) (by decide))
  have h7 := h6.tail (PStep.complete _
    (.o3 (.parsed (some "Office Supplies") (some 1))) (by decide))
  have h8 := h7.tail (PStep.dispatch _ Stage.s4 (by decide) (by decide))
  have h9 := h8.tail (PStep.complete _ (.o4 (.parsed (some []))) (by decide))
  have h10 := h9.tail (PStep.dispatch _ Stage.s5 (by decide) (by decide))
  have h11 := h10.tail (PStep.complete _
    (.o5 (.responded "Routine office-supply invoice.")) (by decide))
  have hreach : Relation.ReflTransGen (PStep SafeExt) pInit demoRun := h11
  exact ⟨rfl, completed_status_implies_stages_defined demoRun hreach rfl⟩

end InvoicePipeline
